import Mathlib

/-!
Verification of the time-control engine of the byo-yomi game clock
(`src/core/timeControl.ts`, types from `src/core/gameState.ts`).

All JavaScript numbers involved are integers, embedded as `Int`.
The `while` loop of `tickOvertime`'s byo-yomi branch is embedded as a
fuel-based structural recursion `byoLoopGo`; the fuel `periods.toNat`
is an exact bound on the number of iterations (each iteration requires
`0 < periods` and decrements `periods`), and `byoLoop_unfold` below
proves the loop's defining equation, establishing fidelity.
-/

namespace ByoYomi

/-- `TimeControlConfig` from gameState.ts: byoyomi / canadian / fischer variants. -/
inductive TimeControlConfig where
  | byoyomi (mainTimeSeconds periods periodTimeSeconds : Int)
  | canadian (mainTimeSeconds stones overtimeSeconds : Int)
  | fischer (mainTimeSeconds incrementSeconds : Int)
deriving DecidableEq

/-- `OvertimeState` from gameState.ts (ByoYomiOvertime / CanadianOvertime). -/
inductive OvertimeState where
  | byoyomi (periodsRemaining periodTimeRemainingMs : Int)
  | canadian (stonesRemaining overtimeRemainingMs : Int)
deriving DecidableEq

/-- `PlayerState` from gameState.ts. -/
structure PlayerState where
  mainTimeRemainingMs : Int
  overtime : Option OvertimeState
  moves : Int
  isInOvertime : Bool
deriving DecidableEq

/-- `TickResult` from timeControl.ts. -/
structure TickResult where
  newState : PlayerState
  expired : Bool
  enteredOvertime : Bool
deriving DecidableEq

/-- `createInitialPlayerState` from gameState.ts. -/
def createInitialPlayerState (config : TimeControlConfig) : PlayerState :=
  { mainTimeRemainingMs :=
      (match config with
       | .byoyomi m _ _ => m
       | .canadian m _ _ => m
       | .fischer m _ => m) * 1000
    overtime := none
    moves := 0
    isInOvertime := false }

/-- Body of the `while` loop in `tickOvertime`'s byo-yomi branch, with explicit
fuel. Loop state is `(periodTimeRemainingMs, periodsRemaining)`; `P` is the full
period duration `config.periodTimeSeconds * 1000`. -/
def byoLoopGo (P : Int) : Nat → Int → Int → Int × Int
  | 0, rem, periods => (rem, periods)
  | fuel + 1, rem, periods =>
    if rem ≤ 0 ∧ 0 < periods then
      byoLoopGo P fuel (if 0 < periods - 1 then rem + P else rem) (periods - 1)
    else (rem, periods)

/-- The `while` loop of `tickOvertime`'s byo-yomi branch: while
`periodTimeRemainingMs ≤ 0 && periodsRemaining > 0`, consume a period and, if
periods remain, replenish by a full period duration. The fuel `periods.toNat`
is exact; see `byoLoop_unfold`. -/
def byoLoop (P rem periods : Int) : Int × Int :=
  byoLoopGo P periods.toNat rem periods

/-- `createOvertimeState` from timeControl.ts. -/
def createOvertimeState (config : TimeControlConfig) : Option OvertimeState :=
  match config with
  | .byoyomi _ periods periodTimeSeconds =>
      some (.byoyomi periods (periodTimeSeconds * 1000))
  | .canadian _ stones overtimeSeconds =>
      some (.canadian stones (overtimeSeconds * 1000))
  | .fischer _ _ => none

/-- `tickOvertime` from timeControl.ts. Branch structure mirrors the source's
if/else-if chain: byo-yomi config with byo-yomi overtime; Canadian config with
Canadian overtime; Fischer config (any overtime); otherwise no branch matches
and the state is returned with `expired = false`. -/
def tickOvertime (state : PlayerState) (config : TimeControlConfig) (deltaMs : Int) :
    PlayerState × Bool :=
  match config, state.overtime with
  | .byoyomi _ _ periodTimeSeconds, some (.byoyomi pr ptr) =>
      let p := byoLoop (periodTimeSeconds * 1000) (ptr - deltaMs) pr
      if p.2 ≤ 0 then
        ({ state with overtime := some (.byoyomi p.2 0) }, true)
      else
        ({ state with overtime := some (.byoyomi p.2 p.1) }, false)
  | .canadian _ _ _, some (.canadian sr otr) =>
      let r := otr - deltaMs
      if r ≤ 0 then
        ({ state with overtime := some (.canadian sr 0) }, true)
      else
        ({ state with overtime := some (.canadian sr r) }, false)
  | .fischer _ _, _ => (state, true)
  | _, _ => (state, false)

/-- `tick` from timeControl.ts. -/
def tick (state : PlayerState) (config : TimeControlConfig) (deltaMs : Int) : TickResult :=
  if state.isInOvertime then
    let result := tickOvertime state config deltaMs
    { newState := result.1, expired := result.2, enteredOvertime := false }
  else
    let m := state.mainTimeRemainingMs - deltaMs
    if m ≤ 0 then
      let overflow := -m
      let ot := createOvertimeState config
      let s1 : PlayerState :=
        { state with mainTimeRemainingMs := 0, isInOvertime := true, overtime := ot }
      if ot.isSome then
        let result := tickOvertime s1 config overflow
        { newState := result.1, expired := result.2, enteredOvertime := true }
      else
        { newState := s1, expired := true, enteredOvertime := true }
    else
      { newState := { state with mainTimeRemainingMs := m }, expired := false,
        enteredOvertime := false }

/-- `onMove` from timeControl.ts. The source's if/else-if chain tests
`config.type` first in every condition, so it is embedded as a match on the
configuration with the remaining conjuncts as inner conditions. -/
def onMove (state : PlayerState) (config : TimeControlConfig) : PlayerState :=
  let newState := { state with moves := state.moves + 1 }
  match config with
  | .fischer _ incrementSeconds =>
      if newState.isInOvertime then newState
      else
        { newState with
          mainTimeRemainingMs := newState.mainTimeRemainingMs + incrementSeconds * 1000 }
  | .byoyomi _ _ periodTimeSeconds =>
      if newState.isInOvertime then
        match newState.overtime with
        | some (.byoyomi pr _) =>
            { newState with overtime := some (.byoyomi pr (periodTimeSeconds * 1000)) }
        | _ => newState
      else newState
  | .canadian _ stones overtimeSeconds =>
      if newState.isInOvertime then
        match newState.overtime with
        | some (.canadian sr otr) =>
            if sr - 1 ≤ 0 then
              { newState with overtime := some (.canadian stones (overtimeSeconds * 1000)) }
            else
              { newState with overtime := some (.canadian (sr - 1) otr) }
        | _ => newState
      else newState

/-- `String.prototype.padStart(2, 0)` as used by `formatTime`. -/
def padStart2 (s : String) : String :=
  if s.length < 2 then String.mk (List.replicate (2 - s.length) '0') ++ s else s

/-- `formatTime` from timeControl.ts. `Math.ceil(ms / 1000)` on an integer `ms`
is the ceiling division, written here as `(ms + 999) / 1000` (`/` on `Int` is
Euclidean division, i.e. floor division for the positive divisor 1000);
`Math.max(0, _)` and the later
`Math.floor`s on non-negative values are the `toNat` clamp and `Nat` division. -/
def formatTime (ms : Int) : String :=
  let totalSeconds : Nat := (max 0 ((ms + 999) / 1000)).toNat
  let hours := totalSeconds / 3600
  let minutes := totalSeconds % 3600 / 60
  let seconds := totalSeconds % 60
  if hours > 0 then
    toString hours ++ ":" ++ padStart2 (toString minutes) ++ ":" ++ padStart2 (toString seconds)
  else
    toString minutes ++ ":" ++ padStart2 (toString seconds)

/-- Modelled from the spec (for the refinement half of the `formatTime`
contract): two-digit zero-padding, phrased directly on the number. -/
def pad2Spec (n : Nat) : String :=
  if n < 10 then "0" ++ toString n else toString n

/-- Modelled from the spec: "the formatting of max(0, ceil(ms/1000)) seconds,
printed as H:MM:SS when hours > 0 and M:SS otherwise, with two-digit
zero-padding on minutes and seconds but not on the leading hour or leading
minute digit". The ceiling is phrased as the negated floor of the negation. -/
def formatTimeSpec (ms : Int) : String :=
  let t : Nat := (-(-ms / 1000)).toNat
  let h := t / 3600
  let m := t / 60 % 60
  let s := t % 60
  if 0 < h then toString h ++ ":" ++ pad2Spec m ++ ":" ++ pad2Spec s
  else toString m ++ ":" ++ pad2Spec s

/-- The states reachable from the initial player state by ticking with
non-negative deltas and making moves, under a fixed configuration. -/
inductive Reachable (config : TimeControlConfig) : PlayerState → Prop where
  | init : Reachable config (createInitialPlayerState config)
  | tickStep (s : PlayerState) (d : Int) (hd : 0 ≤ d) (hs : Reachable config s) :
      Reachable config (tick s config d).newState
  | moveStep (s : PlayerState) (hs : Reachable config s) :
      Reachable config (onMove s config)

/-- The control flow of `tick` reaches the Fischer arm of `tickOvertime` exactly
when `tickOvertime` is entered with a Fischer configuration: `tick` calls
`tickOvertime` either because `state.isInOvertime` is set (any configuration)
or, after exhausting main time, only when `createOvertimeState config` is
`some` - which excludes Fischer. -/
def tickHitsFischerBranch (state : PlayerState) (config : TimeControlConfig) : Bool :=
  state.isInOvertime &&
    (match config with
     | .fischer _ _ => true
     | _ => false)

/-- The configuration constraints of spec section 3. -/
def ConfigOK : TimeControlConfig → Prop
  | .byoyomi m p pts => 0 ≤ m ∧ 0 ≤ p ∧ 0 < pts
  | .canadian m st ots => 0 ≤ m ∧ 1 ≤ st ∧ 0 < ots
  | .fischer m inc => 0 ≤ m ∧ 0 ≤ inc

/-- Overtime counters and counts are non-negative. -/
def OvertimeOK : Option OvertimeState → Prop
  | none => True
  | some (.byoyomi pr ptr) => 0 ≤ pr ∧ 0 ≤ ptr
  | some (.canadian sr otr) => 0 ≤ sr ∧ 0 ≤ otr

/-- The overtime slot matches the configuration's scheme: present with the same
variant for byo-yomi / Canadian, absent for Fischer. -/
def MatchesConfig : TimeControlConfig → Option OvertimeState → Prop
  | .byoyomi _ _ _, some (.byoyomi _ _) => True
  | .canadian _ _ _, some (.canadian _ _) => True
  | .fischer _ _, none => True
  | _, _ => False

/-- The Player Clock State invariants of spec section 3. -/
def Inv (config : TimeControlConfig) (s : PlayerState) : Prop :=
  0 ≤ s.mainTimeRemainingMs ∧ 0 ≤ s.moves ∧ OvertimeOK s.overtime ∧
    (s.isInOvertime = true → s.mainTimeRemainingMs = 0 ∧ MatchesConfig config s.overtime)

/-- States on which `tick _ _ 0` is the identity: the active counter is still
positive (and, in overtime, the scheme is not Fischer). -/
def ZeroTickOK (s : PlayerState) (config : TimeControlConfig) : Prop :=
  (s.isInOvertime = false → 0 < s.mainTimeRemainingMs) ∧
    (s.isInOvertime = true →
      match config, s.overtime with
      | .fischer _ _, _ => False
      | .byoyomi _ _ _, some (.byoyomi pr ptr) => 0 < pr ∧ 0 < ptr
      | .canadian _ _ _, some (.canadian _ otr) => 0 < otr
      | _, _ => True)

/-! ## Helper lemmas about the byo-yomi period loop -/

/-- When the loop guard fails, the loop returns its state unchanged, for any fuel. -/
theorem byoLoopGo_of_not (P : Int) (fuel : Nat) (rem periods : Int)
    (h : ¬(rem ≤ 0 ∧ 0 < periods)) : byoLoopGo P fuel rem periods = (rem, periods) := by
  cases fuel with
  | zero => rfl
  | succ f => simp only [byoLoopGo, if_neg h]

/-- Fidelity of the fuel-based embedding: `byoLoop` satisfies exactly the
defining equation of the source's `while` loop. -/
theorem byoLoop_unfold (P rem periods : Int) :
    byoLoop P rem periods =
      if rem ≤ 0 ∧ 0 < periods then
        byoLoop P (if 0 < periods - 1 then rem + P else rem) (periods - 1)
      else (rem, periods) := by
  by_cases h : rem ≤ 0 ∧ 0 < periods
  · rw [if_pos h]
    unfold byoLoop
    obtain ⟨k, hk⟩ : ∃ k, periods.toNat = k + 1 := ⟨periods.toNat - 1, by omega⟩
    rw [hk]
    simp only [byoLoopGo, if_pos h]
    have : (periods - 1).toNat = k := by omega
    rw [this]
  · rw [if_neg h]
    exact byoLoopGo_of_not P _ rem periods h

/-- Closed form of the period loop: starting with non-positive remainder `rem`
and at least one period, if `m + 1` is the number of period durations needed to
make the remainder positive, the loop either consumes `m + 1` periods (when
that many are spare) or consumes everything down to zero periods. -/
theorem byoLoopGo_closed (P : Int) (hP : 0 < P) :
    ∀ (fuel : Nat) (periods rem : Int) (m : Nat), periods.toNat ≤ fuel → 1 ≤ periods →
      rem ≤ 0 → 0 < rem + ((m : Int) + 1) * P → rem + (m : Int) * P ≤ 0 →
      byoLoopGo P fuel rem periods =
        if (m : Int) + 1 < periods then (rem + ((m : Int) + 1) * P, periods - ((m : Int) + 1))
        else (rem + (periods - 1) * P, 0) := by
  intro fuel
  induction fuel with
  | zero => intro periods rem m hf h1 _ _ _; omega
  | succ f ih =>
    intro periods rem m hf h1 hrem hpos hle
    simp only [byoLoopGo, if_pos (And.intro hrem (by omega : (0:Int) < periods))]
    by_cases h2 : periods = 1
    · subst h2
      rw [if_neg (by omega : ¬(0:Int) < 1 - 1)]
      rw [byoLoopGo_of_not P f rem (1 - 1) (by omega)]
      rw [if_neg (by omega : ¬(m : Int) + 1 < 1)]
      norm_num
    · have h2' : 2 ≤ periods := by omega
      rw [if_pos (by omega : (0:Int) < periods - 1)]
      by_cases h3 : 0 < rem + P
      · have hm : m = 0 := by
          by_contra hm
          have hm1 : 1 ≤ (m : Int) := by omega
          nlinarith
        subst hm
        rw [byoLoopGo_of_not P f (rem + P) (periods - 1) (by omega)]
        simp only [Nat.cast_zero]
        rw [if_pos (by omega : (0:Int) + 1 < periods)]
        norm_num
      · have hm1 : 1 ≤ m := by
          by_contra hm
          have : m = 0 := by omega
          subst this
          simp at hpos
          omega
        obtain ⟨m', rfl⟩ : ∃ m', m = m' + 1 := ⟨m - 1, by omega⟩
        have hpos' : 0 < rem + P + ((m' : Int) + 1) * P := by push_cast at hpos ⊢; linarith
        have hle' : rem + P + (m' : Int) * P ≤ 0 := by push_cast at hle ⊢; linarith
        rw [ih (periods - 1) (rem + P) m' (by omega) (by omega) (by omega) hpos' hle']
        by_cases h4 : (m' : Int) + 1 < periods - 1
        · rw [if_pos h4, if_pos (by push_cast; omega)]
          refine Prod.ext ?_ ?_ <;> push_cast <;> ring
        · rw [if_neg h4, if_neg (by push_cast; omega)]
          refine Prod.ext ?_ ?_ <;> push_cast <;> ring

/-- Exit property of the period loop: periods stay non-negative, and a positive
final period count forces a positive final remainder. -/
theorem byoLoopGo_post (P : Int) :
    ∀ (fuel : Nat) (rem periods : Int), periods.toNat ≤ fuel → 0 ≤ periods →
      0 ≤ (byoLoopGo P fuel rem periods).2 ∧
        (0 < (byoLoopGo P fuel rem periods).2 → 0 < (byoLoopGo P fuel rem periods).1) := by
  intro fuel
  induction fuel with
  | zero =>
    intro rem periods hf hp
    have : periods = 0 := by omega
    subst this
    simp only [byoLoopGo]
    norm_num
  | succ f ih =>
    intro rem periods hf hp
    by_cases h : rem ≤ 0 ∧ 0 < periods
    · simp only [byoLoopGo, if_pos h]
      exact ih _ _ (by omega) (by omega)
    · rw [byoLoopGo_of_not P _ rem periods h]
      refine ⟨hp, fun hpp => ?_⟩
      by_contra hr
      push_neg at hr
      exact h ⟨hr, hpp⟩

/-- `byoLoop` with a failing guard is the identity. -/
theorem byoLoop_not_run (P rem periods : Int) (h : ¬(rem ≤ 0 ∧ 0 < periods)) :
    byoLoop P rem periods = (rem, periods) :=
  byoLoopGo_of_not P periods.toNat rem periods h

/-- Closed form of `byoLoop` (see `byoLoopGo_closed`). -/
theorem byoLoop_closed (P : Int) (hP : 0 < P) (periods rem : Int) (m : Nat)
    (h1 : 1 ≤ periods) (hrem : rem ≤ 0) (hpos : 0 < rem + ((m : Int) + 1) * P)
    (hle : rem + (m : Int) * P ≤ 0) :
    byoLoop P rem periods =
      if (m : Int) + 1 < periods then (rem + ((m : Int) + 1) * P, periods - ((m : Int) + 1))
      else (rem + (periods - 1) * P, 0) :=
  byoLoopGo_closed P hP periods.toNat periods rem m le_rfl h1 hrem hpos hle

/-- Exit property of `byoLoop` (see `byoLoopGo_post`). -/
theorem byoLoop_post (P rem periods : Int) (hp : 0 ≤ periods) :
    0 ≤ (byoLoop P rem periods).2 ∧
      (0 < (byoLoop P rem periods).2 → 0 < (byoLoop P rem periods).1) :=
  byoLoopGo_post P periods.toNat rem periods le_rfl hp

/-! ## Branch characterizations of tickOvertime and tick -/

theorem tickOvertime_byoyomi (s : PlayerState) (mt p pts pr ptr d : Int)
    (hot : s.overtime = some (.byoyomi pr ptr)) :
    tickOvertime s (.byoyomi mt p pts) d =
      if (byoLoop (pts * 1000) (ptr - d) pr).2 ≤ 0 then
        ({ s with overtime := some (.byoyomi (byoLoop (pts * 1000) (ptr - d) pr).2 0) }, true)
      else
        ({ s with overtime := some (.byoyomi (byoLoop (pts * 1000) (ptr - d) pr).2
            (byoLoop (pts * 1000) (ptr - d) pr).1) }, false) := by
  simp only [tickOvertime, hot]

theorem tickOvertime_canadian (s : PlayerState) (mt st ots sr otr d : Int)
    (hot : s.overtime = some (.canadian sr otr)) :
    tickOvertime s (.canadian mt st ots) d =
      if otr - d ≤ 0 then ({ s with overtime := some (.canadian sr 0) }, true)
      else ({ s with overtime := some (.canadian sr (otr - d)) }, false) := by
  simp only [tickOvertime, hot]

theorem tickOvertime_fischer (s : PlayerState) (mt inc d : Int) :
    tickOvertime s (.fischer mt inc) d = (s, true) := by
  unfold tickOvertime
  cases h : s.overtime with
  | none => rfl
  | some o => cases o <;> rfl

theorem tick_inOvertime (s : PlayerState) (config : TimeControlConfig) (d : Int)
    (hio : s.isInOvertime = true) :
    tick s config d =
      { newState := (tickOvertime s config d).1, expired := (tickOvertime s config d).2,
        enteredOvertime := false } := by
  simp only [tick, hio, if_pos]

theorem tick_mainTime (s : PlayerState) (config : TimeControlConfig) (d : Int)
    (hio : s.isInOvertime = false) (h : 0 < s.mainTimeRemainingMs - d) :
    tick s config d =
      { newState := { s with mainTimeRemainingMs := s.mainTimeRemainingMs - d },
        expired := false, enteredOvertime := false } := by
  simp only [tick, hio, Bool.false_eq_true, if_neg, if_neg (by omega : ¬s.mainTimeRemainingMs - d ≤ 0)]
  simp

theorem tick_enter (s : PlayerState) (config : TimeControlConfig) (d : Int)
    (hio : s.isInOvertime = false) (h : s.mainTimeRemainingMs - d ≤ 0) :
    tick s config d =
      if (createOvertimeState config).isSome then
        { newState := (tickOvertime
            { s with mainTimeRemainingMs := 0, isInOvertime := true, overtime := createOvertimeState config } config (-(s.mainTimeRemainingMs - d))).1,
          expired := (tickOvertime
            { s with mainTimeRemainingMs := 0, isInOvertime := true, overtime := createOvertimeState config } config (-(s.mainTimeRemainingMs - d))).2,
          enteredOvertime := true }
      else
        { newState := { s with mainTimeRemainingMs := 0, isInOvertime := true, overtime := createOvertimeState config },
          expired := true, enteredOvertime := true } := by
  simp only [tick, hio, Bool.false_eq_true, if_false, if_pos h]

theorem onMove_fischer (s : PlayerState) (mt inc : Int) :
    onMove s (.fischer mt inc) =
      if s.isInOvertime then { s with moves := s.moves + 1 }
      else { s with moves := s.moves + 1, mainTimeRemainingMs := s.mainTimeRemainingMs + inc * 1000 } := by
  obtain ⟨mtr, ot, mv, io⟩ := s
  cases io <;> simp [onMove]

theorem onMove_moves (s : PlayerState) (config : TimeControlConfig) :
    (onMove s config).moves = s.moves + 1 := by
  obtain ⟨mtr, ot, mv, io⟩ := s
  unfold onMove
  rcases config with ⟨m, p, pts⟩ | ⟨m, st, ots⟩ | ⟨m, inc⟩ <;> cases io <;>
    rcases ot with _ | (⟨pr, ptr⟩ | ⟨sr, otr⟩) <;> simp <;> split <;> rfl

/-! ## Claim C1 -/

/-- C1 (counterexample): the claim "for every configuration and every player
state, tick with delta 0 is the identity with expired=false and
enteredOvertime=false" is false. On the state with 0ms of main time and not yet
in overtime (the initial state of any configuration with mainTimeSeconds = 0),
a tick of 0 enters overtime: it returns enteredOvertime=true, expired=true, and
a changed state. -/
theorem tick_zero_identity_cex :
    (tick ⟨0, none, 0, false⟩ (.fischer 0 10) 0).enteredOvertime = true ∧
      (tick ⟨0, none, 0, false⟩ (.fischer 0 10) 0).expired = true ∧
      (tick ⟨0, none, 0, false⟩ (.fischer 0 10) 0).newState ≠ ⟨0, none, 0, false⟩ := by
  decide

/-- C1 (amended): tick with delta 0 is the identity on the state and returns
expired=false, enteredOvertime=false, for every configuration and every state
whose active counter is still positive: states not in overtime need
mainTimeRemainingMs > 0; in-overtime byo-yomi states (byo-yomi config) need
periodsRemaining > 0 and periodTimeRemainingMs > 0; in-overtime Canadian states
(Canadian config) need overtimeRemainingMs > 0; in-overtime states under a
Fischer config are excluded (the defensive Fischer branch reports
expired=true there). -/
theorem tick_zero_identity (s : PlayerState) (config : TimeControlConfig)
    (h : ZeroTickOK s config) : tick s config 0 = ⟨s, false, false⟩ := by
  obtain ⟨h1, h2⟩ := h
  cases hio : s.isInOvertime with
  | false =>
    have hm : 0 < s.mainTimeRemainingMs := h1 hio
    rw [tick_mainTime s config 0 hio (by omega)]
    simp
  | true =>
    rw [tick_inOvertime s config 0 hio]
    have h2' := h2 hio
    have hto : tickOvertime s config 0 = (s, false) := by
      rcases config with ⟨mt, p, pts⟩ | ⟨mt, st, ots⟩ | ⟨mt, inc⟩
      · rcases hot : s.overtime with _ | (⟨pr, ptr⟩ | ⟨sr, otr⟩)
        · simp only [tickOvertime, hot]
        · rw [hot] at h2'
          obtain ⟨hpr, hptr⟩ := h2'
          rw [tickOvertime_byoyomi s mt p pts pr ptr 0 hot]
          rw [byoLoop_not_run (pts * 1000) (ptr - 0) pr (by omega)]
          rw [if_neg (by omega : ¬pr ≤ 0)]
          rw [show ptr - 0 = ptr by ring, ← hot]
        · simp only [tickOvertime, hot]
      · rcases hot : s.overtime with _ | (⟨pr, ptr⟩ | ⟨sr, otr⟩)
        · simp only [tickOvertime, hot]
        · simp only [tickOvertime, hot]
        · rw [hot] at h2'
          rw [tickOvertime_canadian s mt st ots sr otr 0 hot]
          rw [if_neg (by omega : ¬otr - 0 ≤ 0)]
          rw [show otr - 0 = otr by ring, ← hot]
      · exact h2'.elim
    rw [hto]

/-- C1 (witness). -/
theorem tick_zero_identity_witness :
    tick ⟨60000, none, 0, false⟩ (.byoyomi 60 3 30) 0 =
      ⟨⟨60000, none, 0, false⟩, false, false⟩ :=
  tick_zero_identity ⟨60000, none, 0, false⟩ (.byoyomi 60 3 30)
    ⟨fun _ => by norm_num, fun hh => by simp at hh⟩

/-! ## Claim C2 -/

/-- C2 (counterexample): the second half of the claim, "for every
deltaMs ≥ mainTimeRemainingMs under byo-yomi or Canadian, the crossing tick
leaves the freshly initialized overtime counter reduced by exactly
overflow = deltaMs − mainTimeRemainingMs_before ... and never by zero", is
false. With byo-yomi config (periods 3 of 30s), 500ms of main time left and
deltaMs = 60500, the overflow is 60000 = two full periods: the tick consumes
two periods and leaves periodTimeRemainingMs at the full 30000 - the freshly
replenished counter is reduced by 0, not by the overflow 60000. -/
theorem tick_main_conservation_cex :
    tick ⟨500, none, 0, false⟩ (.byoyomi 60 3 30) 60500 =
      ⟨⟨0, some (.byoyomi 1 30000), 0, true⟩, false, true⟩ ∧
      (60500 - 500 : Int) ≠ 30000 - 30000 := by
  constructor
  · decide
  · decide

/-- C2 (amended): (i) while not in overtime and mainTimeRemainingMs − deltaMs
stays positive, tick decreases mainTimeRemainingMs by exactly deltaMs with no
overtime entry and no expiry; (ii) a tick that crosses from main time into
overtime under byo-yomi (with at least one period) or Canadian leaves the
freshly initialized overtime counter reduced by exactly
overflow = deltaMs − mainTimeRemainingMs_before - provided the overflow is
positive and smaller than one full period duration (byo-yomi) resp. the full
overtime block (Canadian); the reduction then equals the overflow, which is
neither zero nor the full deltaMs. Larger overflows cascade into further
periods or clamp at zero, and overflow = 0 leaves the fresh counter untouched,
as the counterexample shows. -/
theorem tick_main_conservation :
    (∀ (s : PlayerState) (config : TimeControlConfig) (d : Int),
        s.isInOvertime = false → 0 < s.mainTimeRemainingMs - d →
        tick s config d =
          ⟨{ s with mainTimeRemainingMs := s.mainTimeRemainingMs - d }, false, false⟩) ∧
    (∀ (s : PlayerState) (mt p pts d : Int),
        s.isInOvertime = false → 0 < s.mainTimeRemainingMs → s.mainTimeRemainingMs ≤ d →
        0 < d - s.mainTimeRemainingMs → d - s.mainTimeRemainingMs < pts * 1000 → 1 ≤ p →
        tick s (.byoyomi mt p pts) d =
          ⟨{ s with mainTimeRemainingMs := 0, isInOvertime := true, overtime := some (.byoyomi p (pts * 1000 - (d - s.mainTimeRemainingMs))) },
            false, true⟩) ∧
    (∀ (s : PlayerState) (mt st ots d : Int),
        s.isInOvertime = false → 0 < s.mainTimeRemainingMs → s.mainTimeRemainingMs ≤ d →
        0 < d - s.mainTimeRemainingMs → d - s.mainTimeRemainingMs < ots * 1000 →
        tick s (.canadian mt st ots) d =
          ⟨{ s with mainTimeRemainingMs := 0, isInOvertime := true, overtime := some (.canadian st (ots * 1000 - (d - s.mainTimeRemainingMs))) },
            false, true⟩) := by
  refine ⟨?_, ?_, ?_⟩
  · intro s config d hio h
    exact tick_mainTime s config d hio h
  · intro s mt p pts d hio hm hle hov hsmall hp
    rw [tick_enter s (.byoyomi mt p pts) d hio (by omega)]
    rw [if_pos (by simp [createOvertimeState])]
    set s1 : PlayerState := { s with mainTimeRemainingMs := 0, isInOvertime := true, overtime := createOvertimeState (.byoyomi mt p pts) } with hs1
    have hot : s1.overtime = some (.byoyomi p (pts * 1000)) := by
      simp [hs1, createOvertimeState]
    rw [tickOvertime_byoyomi s1 mt p pts p (pts * 1000)
      (-(s.mainTimeRemainingMs - d)) hot]
    rw [byoLoop_not_run (pts * 1000)
      (pts * 1000 - -(s.mainTimeRemainingMs - d)) p (by omega)]
    rw [if_neg (by omega : ¬p ≤ 0)]
    have he : pts * 1000 - -(s.mainTimeRemainingMs - d) =
        pts * 1000 - (d - s.mainTimeRemainingMs) := by ring
    rw [he]
  · intro s mt st ots d hio hm hle hov hsmall
    rw [tick_enter s (.canadian mt st ots) d hio (by omega)]
    rw [if_pos (by simp [createOvertimeState])]
    set s1 : PlayerState := { s with mainTimeRemainingMs := 0, isInOvertime := true, overtime := createOvertimeState (.canadian mt st ots) } with hs1
    have hot : s1.overtime = some (.canadian st (ots * 1000)) := by
      simp [hs1, createOvertimeState]
    rw [tickOvertime_canadian s1 mt st ots st (ots * 1000)
      (-(s.mainTimeRemainingMs - d)) hot]
    rw [if_neg (by omega : ¬ots * 1000 - -(s.mainTimeRemainingMs - d) ≤ 0)]
    have he : ots * 1000 - -(s.mainTimeRemainingMs - d) =
        ots * 1000 - (d - s.mainTimeRemainingMs) := by ring
    rw [he]

/-- C2 (witness): scenario B of the spec - 500ms main time, 1000ms tick under
byo-yomi config with 30s periods crosses into overtime with the fresh period
reduced by the 500ms overflow; plus a plain main-time tick. -/
theorem tick_main_conservation_witness :
    tick ⟨60000, none, 0, false⟩ (.byoyomi 60 3 30) 1000 =
      ⟨⟨59000, none, 0, false⟩, false, false⟩ ∧
    tick ⟨500, none, 0, false⟩ (.byoyomi 60 3 30) 1000 =
      ⟨⟨0, some (.byoyomi 3 29500), 0, true⟩, false, true⟩ := by
  constructor
  · have h := tick_main_conservation.1 ⟨60000, none, 0, false⟩ (.byoyomi 60 3 30) 1000
      rfl (by norm_num)
    exact h.trans (by decide)
  · have h := tick_main_conservation.2.1 ⟨500, none, 0, false⟩ 60 3 30 1000
      rfl (by norm_num) (by norm_num) (by norm_num) (by norm_num) (by norm_num)
    exact h.trans (by decide)

/-! ## Claim C3 -/

/-- C3: byo-yomi overtime tick cascading. For a byo-yomi overtime state with
`pr > 0` periods and remainder `ptr`, a tick of `d` first forms
`r0 = ptr - d`. If `r0 > 0` nothing else happens. Otherwise, with `m + 1` the
number of periods needed to make the remainder positive (characterized by
`r0 + (m+1)·P > 0` and `r0 + m·P ≤ 0`, `P` the full period duration), the tick
consumes `m + 1` periods, carrying the negative remainder across all of them,
and ends non-expired with the positive remainder `r0 + (m+1)·P` when `m + 1`
periods are spare; when `periodsRemaining` reaches 0 instead, the result is
expired with `periodTimeRemainingMs` clamped to 0. -/
theorem byoyomi_cascade (s : PlayerState) (mt p pts pr ptr d : Int)
    (hpts : 0 < pts) (hpr : 0 < pr)
    (hio : s.isInOvertime = true) (hot : s.overtime = some (.byoyomi pr ptr)) :
    (0 < ptr - d →
      tick s (.byoyomi mt p pts) d =
        ⟨{ s with overtime := some (.byoyomi pr (ptr - d)) }, false, false⟩) ∧
    (∀ m : Nat, ptr - d ≤ 0 →
      0 < ptr - d + ((m : Int) + 1) * (pts * 1000) →
      ptr - d + (m : Int) * (pts * 1000) ≤ 0 →
      (((m : Int) + 1 < pr →
        tick s (.byoyomi mt p pts) d =
          ⟨{ s with overtime := some (.byoyomi (pr - ((m : Int) + 1)) (ptr - d + ((m : Int) + 1) * (pts * 1000))) }, false, false⟩) ∧
      (pr ≤ (m : Int) + 1 →
        tick s (.byoyomi mt p pts) d =
          ⟨{ s with overtime := some (.byoyomi 0 0) }, true, false⟩))) := by
  constructor
  · intro h
    have hq : byoLoop (pts * 1000) (ptr - d) pr = (ptr - d, pr) :=
      byoLoop_not_run _ _ _ (by omega)
    rw [tick_inOvertime s _ d hio, tickOvertime_byoyomi s mt p pts pr ptr d hot, hq]
    dsimp only
    rw [if_neg (by omega : ¬pr ≤ 0)]
  · intro m h0 hpos hle
    have hcl := byoLoop_closed (pts * 1000) (by positivity) pr (ptr - d) m hpr h0 hpos hle
    constructor
    · intro hlt
      have hq : byoLoop (pts * 1000) (ptr - d) pr =
          (ptr - d + ((m : Int) + 1) * (pts * 1000), pr - ((m : Int) + 1)) := by
        rw [hcl, if_pos hlt]
      rw [tick_inOvertime s _ d hio, tickOvertime_byoyomi s mt p pts pr ptr d hot, hq]
      dsimp only
      rw [if_neg (by omega : ¬pr - ((m : Int) + 1) ≤ 0)]
    · intro hge
      have hq : byoLoop (pts * 1000) (ptr - d) pr =
          (ptr - d + (pr - 1) * (pts * 1000), 0) := by
        rw [hcl, if_neg (by omega : ¬(m : Int) + 1 < pr)]
      rw [tick_inOvertime s _ d hio, tickOvertime_byoyomi s mt p pts pr ptr d hot, hq]
      dsimp only
      rw [if_pos (le_refl (0 : Int))]

/-- C3 (witness): a 70000ms tick on a byo-yomi overtime state with 4 periods of
30s and 1000ms left in the current period consumes 3 periods in one call and
leaves 21000ms in the last period; plus the spec's scenario C, where the last
period is exhausted and the player expires with the display clamped to 0. -/
theorem byoyomi_cascade_witness :
    tick ⟨0, some (.byoyomi 4 1000), 0, true⟩ (.byoyomi 60 4 30) 70000 =
      ⟨⟨0, some (.byoyomi 1 21000), 0, true⟩, false, false⟩ ∧
    tick ⟨0, some (.byoyomi 1 1000), 0, true⟩ (.byoyomi 60 3 30) 1000 =
      ⟨⟨0, some (.byoyomi 0 0), 0, true⟩, true, false⟩ := by
  constructor
  · have h := ((byoyomi_cascade ⟨0, some (.byoyomi 4 1000), 0, true⟩ 60 4 30 4 1000 70000
      (by norm_num) (by norm_num) rfl rfl).2 2 (by norm_num) (by norm_num)
      (by norm_num)).1 (by norm_num)
    exact h.trans (by decide)
  · have h := ((byoyomi_cascade ⟨0, some (.byoyomi 1 1000), 0, true⟩ 60 3 30 1 1000 1000
      (by norm_num) (by norm_num) rfl rfl).2 0 (by norm_num) (by norm_num)
      (by norm_num)).2 (by norm_num)
    exact h.trans (by decide)

/-! ## Claim C4 -/

/-- Structural invariant of reachable Fischer states: the overtime slot is
never populated, and once `isInOvertime` is set the main time is 0. -/
theorem reachable_fischer_inv (mt inc : Int) (s : PlayerState)
    (h : Reachable (.fischer mt inc) s) :
    s.overtime = none ∧ (s.isInOvertime = true → s.mainTimeRemainingMs = 0) := by
  induction h with
  | init => exact ⟨rfl, fun hh => by simp [createInitialPlayerState] at hh⟩
  | tickStep s d hd hs ih =>
    obtain ⟨iho, ihm⟩ := ih
    cases hio : s.isInOvertime with
    | true =>
      rw [tick_inOvertime s _ d hio, tickOvertime_fischer s mt inc d]
      exact ⟨iho, fun _ => ihm hio⟩
    | false =>
      by_cases hm : s.mainTimeRemainingMs - d ≤ 0
      · rw [tick_enter s (.fischer mt inc) d hio hm]
        rw [if_neg (by simp [createOvertimeState])]
        exact ⟨rfl, fun _ => rfl⟩
      · rw [tick_mainTime s _ d hio (by omega)]
        refine ⟨iho, fun hh => ?_⟩
        rw [show ({ newState := { s with mainTimeRemainingMs := s.mainTimeRemainingMs - d }, expired := false, enteredOvertime := false } : TickResult).newState.isInOvertime = s.isInOvertime from rfl, hio] at hh
        exact absurd hh (by simp)
  | moveStep s hs ih =>
    obtain ⟨iho, ihm⟩ := ih
    rw [onMove_fischer s mt inc]
    cases hio : s.isInOvertime with
    | true =>
      simp only [reduceIte]
      exact ⟨iho, fun _ => ihm hio⟩
    | false =>
      rw [if_neg (by simp [hio])]
      exact ⟨iho, fun hh => by simp at hh⟩

/-- C4 (counterexample): the claim "the Fischer case of the overtime-tick step
is never executed on any state reachable via tick and onMove under a Fischer
configuration" is false. Exhausting main time under Fischer sets
`isInOvertime = true` while leaving `overtime = none`; that state is reachable
(one tick from the initial state of a 1-second Fischer config), and a further
tick on it delegates to `tickOvertime`, whose Fischer arm runs (returning
expired = true). -/
theorem fischer_branch_cex :
    Reachable (.fischer 1 0) ⟨0, none, 0, true⟩ ∧
      tickHitsFischerBranch ⟨0, none, 0, true⟩ (.fischer 1 0) = true ∧
      tick ⟨0, none, 0, true⟩ (.fischer 1 0) 0 = ⟨⟨0, none, 0, true⟩, true, false⟩ := by
  refine ⟨?_, by decide, by decide⟩
  have e : (tick (createInitialPlayerState (.fischer 1 0)) (.fischer 1 0) 1000).newState =
      ⟨0, none, 0, true⟩ := by decide
  exact e ▸ Reachable.tickStep (createInitialPlayerState (.fischer 1 0)) 1000
    (by norm_num) Reachable.init

/-- C4 (amended): the Fischer arm of the overtime-tick step is not unreachable,
but it is harmless and confined to already-expired states: on every state
reachable via tick and onMove under a Fischer configuration, tick reaches that
arm only when `isInOvertime` is already set - in which case the state has
mainTimeRemainingMs = 0 and no overtime slot (it was already reported expired
when main time ran out), and the tick returns the state unchanged with
expired = true. On reachable states not in overtime, tick never executes the
arm. -/
theorem fischer_branch (mt inc : Int) (s : PlayerState)
    (h : Reachable (.fischer mt inc) s) :
    (s.isInOvertime = false → tickHitsFischerBranch s (.fischer mt inc) = false) ∧
    (tickHitsFischerBranch s (.fischer mt inc) = true →
      s.mainTimeRemainingMs = 0 ∧ s.overtime = none ∧
        ∀ d : Int, tick s (.fischer mt inc) d = ⟨s, true, false⟩) := by
  obtain ⟨iho, ihm⟩ := reachable_fischer_inv mt inc s h
  constructor
  · intro hio
    simp [tickHitsFischerBranch, hio]
  · intro hhit
    have hio : s.isInOvertime = true := by
      simp only [tickHitsFischerBranch, Bool.and_eq_true] at hhit
      exact hhit.1
    refine ⟨ihm hio, iho, fun d => ?_⟩
    rw [tick_inOvertime s _ d hio, tickOvertime_fischer s mt inc d]

/-- C4 (witness): on the reachable expired Fischer state of the counterexample
family, the amended theorem applies; on the initial state (not in overtime) the
branch is not hit. -/
theorem fischer_branch_witness :
    tickHitsFischerBranch (createInitialPlayerState (.fischer 1 0)) (.fischer 1 0) = false :=
  (fischer_branch 1 0 (createInitialPlayerState (.fischer 1 0)) Reachable.init).1 rfl

/-! ## Claim C5 -/

/-- `tickOvertime` only touches the overtime slot. -/
theorem tickOvertime_fields (s : PlayerState) (config : TimeControlConfig) (d : Int) :
    (tickOvertime s config d).1.mainTimeRemainingMs = s.mainTimeRemainingMs ∧
    (tickOvertime s config d).1.moves = s.moves ∧
    (tickOvertime s config d).1.isInOvertime = s.isInOvertime := by
  rcases config with ⟨mt, p, pts⟩ | ⟨mt, st, ots⟩ | ⟨mt, inc⟩ <;>
    rcases hot : s.overtime with _ | (⟨pr, ptr⟩ | ⟨sr, otr⟩) <;>
    simp only [tickOvertime, hot] <;>
    refine ⟨?_, ?_, ?_⟩ <;>
    first
      | trivial
      | (split
         · rfl
         · rfl)

/-- `tickOvertime` preserves non-negativity of the overtime counters and the
scheme match between configuration and overtime variant. -/
theorem tickOvertime_overtime (s : PlayerState) (config : TimeControlConfig) (d : Int)
    (hok : OvertimeOK s.overtime) (hmatch : MatchesConfig config s.overtime) :
    OvertimeOK (tickOvertime s config d).1.overtime ∧
      MatchesConfig config (tickOvertime s config d).1.overtime := by
  rcases config with ⟨mt, p, pts⟩ | ⟨mt, st, ots⟩ | ⟨mt, inc⟩ <;>
    rcases hot : s.overtime with _ | (⟨pr, ptr⟩ | ⟨sr, otr⟩) <;>
    rw [hot] at hok hmatch
  · exact hmatch.elim
  · obtain ⟨hpr, hptr⟩ := hok
    have hpost := byoLoop_post (pts * 1000) (ptr - d) pr hpr
    by_cases hq : (byoLoop (pts * 1000) (ptr - d) pr).2 ≤ 0
    · simp only [tickOvertime, hot, if_pos hq]
      exact ⟨⟨hpost.1, le_refl 0⟩, trivial⟩
    · simp only [tickOvertime, hot, if_neg hq]
      exact ⟨⟨hpost.1, le_of_lt (hpost.2 (by omega))⟩, trivial⟩
  · exact hmatch.elim
  · exact hmatch.elim
  · exact hmatch.elim
  · by_cases hq : otr - d ≤ 0
    · simp only [tickOvertime, hot, if_pos hq]
      exact ⟨⟨hok.1, le_refl 0⟩, trivial⟩
    · simp only [tickOvertime, hot, if_neg hq]
      exact ⟨⟨hok.1, by omega⟩, trivial⟩
  · simp only [tickOvertime, hot]
    exact ⟨trivial, trivial⟩
  · exact hmatch.elim
  · exact hmatch.elim

/-- `tick` preserves the state invariants. -/
theorem tick_inv (config : TimeControlConfig) (s : PlayerState) (d : Int)
    (hcfg : ConfigOK config) (hs : Inv config s) (_hd : 0 ≤ d) :
    Inv config (tick s config d).newState := by
  obtain ⟨h1, h2, h3, h4⟩ := hs
  cases hio : s.isInOvertime with
  | true =>
    obtain ⟨hm0, hmatch⟩ := h4 hio
    rw [tick_inOvertime s config d hio]
    obtain ⟨f1, f2, f3⟩ := tickOvertime_fields s config d
    obtain ⟨o1, o2⟩ := tickOvertime_overtime s config d h3 hmatch
    exact ⟨by rw [f1]; exact h1, by rw [f2]; exact h2, o1,
      fun _ => ⟨by rw [f1]; exact hm0, o2⟩⟩
  | false =>
    by_cases hm : s.mainTimeRemainingMs - d ≤ 0
    · rw [tick_enter s config d hio hm]
      rcases config with ⟨mt, p, pts⟩ | ⟨mt, st, ots⟩ | ⟨mt, inc⟩
      · rw [if_pos (by simp [createOvertimeState])]
        set s1 : PlayerState := { s with mainTimeRemainingMs := 0, isInOvertime := true, overtime := createOvertimeState (.byoyomi mt p pts) } with hs1
        have hok1 : OvertimeOK s1.overtime := by
          simp only [hs1, createOvertimeState]
          exact ⟨hcfg.2.1, by nlinarith [hcfg.2.2]⟩
        have hmatch1 : MatchesConfig (.byoyomi mt p pts) s1.overtime := by
          simp only [hs1, createOvertimeState]
          trivial
        obtain ⟨f1, f2, f3⟩ := tickOvertime_fields s1 (.byoyomi mt p pts)
          (-(s.mainTimeRemainingMs - d))
        obtain ⟨o1, o2⟩ := tickOvertime_overtime s1 (.byoyomi mt p pts)
          (-(s.mainTimeRemainingMs - d)) hok1 hmatch1
        exact ⟨by rw [f1], by rw [f2]; exact h2, o1, fun _ => ⟨by rw [f1], o2⟩⟩
      · rw [if_pos (by simp [createOvertimeState])]
        set s1 : PlayerState := { s with mainTimeRemainingMs := 0, isInOvertime := true, overtime := createOvertimeState (.canadian mt st ots) } with hs1
        have hok1 : OvertimeOK s1.overtime := by
          simp only [hs1, createOvertimeState]
          exact ⟨by linarith [hcfg.2.1], by nlinarith [hcfg.2.2]⟩
        have hmatch1 : MatchesConfig (.canadian mt st ots) s1.overtime := by
          simp only [hs1, createOvertimeState]
          trivial
        obtain ⟨f1, f2, f3⟩ := tickOvertime_fields s1 (.canadian mt st ots)
          (-(s.mainTimeRemainingMs - d))
        obtain ⟨o1, o2⟩ := tickOvertime_overtime s1 (.canadian mt st ots)
          (-(s.mainTimeRemainingMs - d)) hok1 hmatch1
        exact ⟨by rw [f1], by rw [f2]; exact h2, o1, fun _ => ⟨by rw [f1], o2⟩⟩
      · rw [if_neg (by simp [createOvertimeState])]
        exact ⟨le_refl 0, h2, trivial, fun _ => ⟨rfl, trivial⟩⟩
    · rw [tick_mainTime s config d hio (by omega)]
      exact ⟨(show 0 ≤ s.mainTimeRemainingMs - d by omega), h2, h3,
        fun hh => by simp [hio] at hh⟩

/-- `onMove` preserves the state invariants. -/
theorem onMove_inv (config : TimeControlConfig) (s : PlayerState)
    (hcfg : ConfigOK config) (hs : Inv config s) : Inv config (onMove s config) := by
  obtain ⟨h1, h2, h3, h4⟩ := hs
  obtain ⟨mtr, ot, mv, io⟩ := s
  have h1' : 0 ≤ mtr := h1
  have h2' : 0 ≤ mv := h2
  rcases config with ⟨mt, p, pts⟩ | ⟨mt, st, ots⟩ | ⟨mt, inc⟩
  · obtain ⟨hc1, hc2, hc3⟩ := hcfg
    cases io with
    | false =>
      have e : onMove (⟨mtr, ot, mv, false⟩ : PlayerState) (.byoyomi mt p pts) =
          ⟨mtr, ot, mv + 1, false⟩ := rfl
      rw [e]
      exact ⟨h1', (show 0 ≤ mv + 1 by omega), h3, fun hh => by simp at hh⟩
    | true =>
      obtain ⟨hm0, hmatch⟩ := h4 rfl
      have hm0' : mtr = 0 := hm0
      rcases ot with _ | (⟨pr, ptr⟩ | ⟨sr, otr⟩)
      · exact (hmatch : False).elim
      · have e : onMove (⟨mtr, some (.byoyomi pr ptr), mv, true⟩ : PlayerState)
            (.byoyomi mt p pts) = ⟨mtr, some (.byoyomi pr (pts * 1000)), mv + 1, true⟩ := rfl
        rw [e]
        have h3' : 0 ≤ pr ∧ 0 ≤ ptr := h3
        exact ⟨h1', (show 0 ≤ mv + 1 by omega), ⟨h3'.1, (show 0 ≤ pts * 1000 by omega)⟩,
          fun _ => ⟨hm0', trivial⟩⟩
      · exact (hmatch : False).elim
  · obtain ⟨hc1, hc2, hc3⟩ := hcfg
    cases io with
    | false =>
      have e : onMove (⟨mtr, ot, mv, false⟩ : PlayerState) (.canadian mt st ots) =
          ⟨mtr, ot, mv + 1, false⟩ := rfl
      rw [e]
      exact ⟨h1', (show 0 ≤ mv + 1 by omega), h3, fun hh => by simp at hh⟩
    | true =>
      obtain ⟨hm0, hmatch⟩ := h4 rfl
      have hm0' : mtr = 0 := hm0
      rcases ot with _ | (⟨pr, ptr⟩ | ⟨sr, otr⟩)
      · exact (hmatch : False).elim
      · exact (hmatch : False).elim
      · have h3' : 0 ≤ sr ∧ 0 ≤ otr := h3
        have e : onMove (⟨mtr, some (.canadian sr otr), mv, true⟩ : PlayerState)
            (.canadian mt st ots) =
            if sr - 1 ≤ 0 then (⟨mtr, some (.canadian st (ots * 1000)), mv + 1, true⟩ : PlayerState)
            else ⟨mtr, some (.canadian (sr - 1) otr), mv + 1, true⟩ := rfl
        rw [e]
        by_cases hsr : sr - 1 ≤ 0
        · rw [if_pos hsr]
          exact ⟨h1', (show 0 ≤ mv + 1 by omega),
            ⟨(show 0 ≤ st by omega), (show 0 ≤ ots * 1000 by omega)⟩,
            fun _ => ⟨hm0', trivial⟩⟩
        · rw [if_neg hsr]
          exact ⟨h1', (show 0 ≤ mv + 1 by omega), ⟨(show 0 ≤ sr - 1 by omega), h3'.2⟩,
            fun _ => ⟨hm0', trivial⟩⟩
  · obtain ⟨hc1, hc2⟩ := hcfg
    cases io with
    | false =>
      have e : onMove (⟨mtr, ot, mv, false⟩ : PlayerState) (.fischer mt inc) =
          ⟨mtr + inc * 1000, ot, mv + 1, false⟩ := rfl
      rw [e]
      exact ⟨(show 0 ≤ mtr + inc * 1000 by omega), (show 0 ≤ mv + 1 by omega), h3,
        fun hh => by simp at hh⟩
    | true =>
      obtain ⟨hm0, hmatch⟩ := h4 rfl
      have hm0' : mtr = 0 := hm0
      have e : onMove (⟨mtr, ot, mv, true⟩ : PlayerState) (.fischer mt inc) =
          ⟨mtr, ot, mv + 1, true⟩ := rfl
      rw [e]
      exact ⟨h1', (show 0 ≤ mv + 1 by omega), h3, fun _ => ⟨hm0', hmatch⟩⟩

/-- C5: for every configuration satisfying the constraints of spec section 3
and every player state satisfying the state invariants (non-negative main
time, moves, and overtime counters; `isInOvertime = true` implies main time
spent to 0 and an overtime slot matching the scheme - present for
byo-yomi/Canadian, absent for Fischer), both a tick with any non-negative
delta and an onMove return a state satisfying the same invariants. -/
theorem inv_preservation (config : TimeControlConfig) (s : PlayerState) (d : Int)
    (hcfg : ConfigOK config) (hs : Inv config s) (hd : 0 ≤ d) :
    Inv config (tick s config d).newState ∧ Inv config (onMove s config) :=
  ⟨tick_inv config s d hcfg hs hd, onMove_inv config s hcfg hs⟩

/-- C5 (witness): invariants hold after a tick that crosses into byo-yomi
overtime and after an onMove from the same state. -/
theorem inv_preservation_witness :
    Inv (.byoyomi 60 3 30) (tick ⟨500, none, 0, false⟩ (.byoyomi 60 3 30) 1000).newState ∧
      Inv (.byoyomi 60 3 30) (onMove ⟨500, none, 0, false⟩ (.byoyomi 60 3 30)) :=
  inv_preservation (.byoyomi 60 3 30) ⟨500, none, 0, false⟩ 1000
    ⟨by norm_num, by norm_num, by norm_num⟩
    ⟨by norm_num, by norm_num, trivial, fun hh => by simp at hh⟩
    (by norm_num)

/-! ## Claim C6 -/

/-- On the two-digit range that minutes and seconds take, the code's
`padStart`-based padding agrees with the spec's numeric padding. -/
theorem padStart2_eq_pad2Spec : ∀ n : Nat, n < 60 → padStart2 (toString n) = pad2Spec n := by
  decide

/-- The code's formatting agrees with the spec's description pointwise. -/
theorem formatTime_eq_spec (ms : Int) : formatTime ms = formatTimeSpec ms := by
  simp only [formatTime, formatTimeSpec]
  have ht : (max 0 ((ms + 999) / 1000)).toNat = (-(-ms / 1000)).toNat := by omega
  rw [ht]
  have hmin : ∀ t : Nat, t % 3600 / 60 = t / 60 % 60 := fun t => by omega
  rw [hmin ((-(-ms / 1000)).toNat)]
  rw [padStart2_eq_pad2Spec ((-(-ms / 1000)).toNat / 60 % 60) (Nat.mod_lt _ (by norm_num))]
  rw [padStart2_eq_pad2Spec ((-(-ms / 1000)).toNat % 60) (Nat.mod_lt _ (by norm_num))]

/-- C6: `formatTime` clamps negative inputs to 0, rounds whole seconds up, and
prints H:MM:SS when hours > 0 and M:SS otherwise with two-digit zero-padding on
minutes and seconds but not on the leading hour or minute digit
(`formatTimeSpec` is that description, modelled from the spec); and the six
sample values of the contract hold. -/
theorem formatTime_contract :
    (∀ ms : Int, formatTime ms = formatTimeSpec ms) ∧
    formatTime 0 = "0:00" ∧ formatTime (-5000) = "0:00" ∧ formatTime 999 = "0:01" ∧
    formatTime 1001 = "0:02" ∧ formatTime 3599000 = "59:59" ∧
    formatTime 3600000 = "1:00:00" :=
  ⟨formatTime_eq_spec, by decide, by decide, by decide, by decide, by decide, by decide⟩

/-! ## Claim C7 -/

/-- C7: `onMove` increments `moves` by exactly 1 for every scheme and state;
under a Fischer configuration it additionally adds incrementSeconds × 1000 to
`mainTimeRemainingMs` exactly when `isInOvertime = false`, and with
`isInOvertime = true` it changes nothing but `moves`. -/
theorem onMove_fischer_frame :
    (∀ (s : PlayerState) (config : TimeControlConfig), (onMove s config).moves = s.moves + 1) ∧
    (∀ (s : PlayerState) (mt inc : Int), s.isInOvertime = false →
      onMove s (.fischer mt inc) =
        { s with moves := s.moves + 1, mainTimeRemainingMs := s.mainTimeRemainingMs + inc * 1000 }) ∧
    (∀ (s : PlayerState) (mt inc : Int), s.isInOvertime = true →
      onMove s (.fischer mt inc) = { s with moves := s.moves + 1 }) := by
  refine ⟨onMove_moves, ?_, ?_⟩
  · intro s mt inc hio
    rw [onMove_fischer s mt inc, if_neg (by simp [hio])]
  · intro s mt inc hio
    rw [onMove_fischer s mt inc, if_pos hio]

/-- C7 (witness): scenario D of the spec (10s Fischer increment applied when
not in overtime), and no time change once in overtime. -/
theorem onMove_fischer_frame_witness :
    onMove ⟨50000, none, 0, false⟩ (.fischer 60 10) = ⟨60000, none, 1, false⟩ ∧
    onMove ⟨0, none, 5, true⟩ (.fischer 60 10) = ⟨0, none, 6, true⟩ := by
  constructor
  · exact (onMove_fischer_frame.2.1 ⟨50000, none, 0, false⟩ 60 10 rfl).trans (by decide)
  · exact (onMove_fischer_frame.2.2 ⟨0, none, 5, true⟩ 60 10 rfl).trans (by decide)

/-! ## Claim C8 -/

/-- C8: on a Canadian overtime state, `onMove` decrements `stonesRemaining`;
if the decremented value is ≤ 0 it resets, in the same call, `stonesRemaining`
to `config.stones` and `overtimeRemainingMs` to `config.overtimeSeconds × 1000`;
otherwise it stores the decremented count and leaves `overtimeRemainingMs`
unchanged. -/
theorem onMove_canadian_stones (s : PlayerState) (mt st ots sr otr : Int)
    (hio : s.isInOvertime = true) (hot : s.overtime = some (.canadian sr otr)) :
    (sr - 1 ≤ 0 →
      onMove s (.canadian mt st ots) =
        { s with moves := s.moves + 1, overtime := some (.canadian st (ots * 1000)) }) ∧
    (0 < sr - 1 →
      onMove s (.canadian mt st ots) =
        { s with moves := s.moves + 1, overtime := some (.canadian (sr - 1) otr) }) := by
  obtain ⟨mtr, ot, mv, io⟩ := s
  have hio' : io = true := hio
  subst hio'
  have hot' : ot = some (.canadian sr otr) := hot
  subst hot'
  have e : onMove (⟨mtr, some (.canadian sr otr), mv, true⟩ : PlayerState) (.canadian mt st ots) =
      if sr - 1 ≤ 0 then (⟨mtr, some (.canadian st (ots * 1000)), mv + 1, true⟩ : PlayerState)
      else ⟨mtr, some (.canadian (sr - 1) otr), mv + 1, true⟩ := rfl
  constructor
  · intro hsr
    rw [e, if_pos hsr]
  · intro hsr
    rw [e, if_neg (by omega)]

/-- C8 (witness): scenario E of the spec (last stone played resets the period)
and a non-final stone that only decrements. -/
theorem onMove_canadian_stones_witness :
    onMove ⟨0, some (.canadian 1 50000), 7, true⟩ (.canadian 60 25 300) =
      ⟨0, some (.canadian 25 300000), 8, true⟩ ∧
    onMove ⟨0, some (.canadian 5 50000), 7, true⟩ (.canadian 60 25 300) =
      ⟨0, some (.canadian 4 50000), 8, true⟩ := by
  constructor
  · exact ((onMove_canadian_stones ⟨0, some (.canadian 1 50000), 7, true⟩ 60 25 300 1 50000
      rfl rfl).1 (by norm_num)).trans (by decide)
  · exact ((onMove_canadian_stones ⟨0, some (.canadian 5 50000), 7, true⟩ 60 25 300 5 50000
      rfl rfl).2 (by norm_num)).trans (by decide)

/-! ## Claim C9 -/

/-- C9: on a Canadian overtime state, tick subtracts deltaMs from
`overtimeRemainingMs`, clamping to 0 with expired=true when the result is ≤ 0,
and leaves `stonesRemaining` unchanged in every case. -/
theorem tick_canadian_frame (s : PlayerState) (mt st ots sr otr d : Int)
    (hio : s.isInOvertime = true) (hot : s.overtime = some (.canadian sr otr)) :
    (otr - d ≤ 0 →
      tick s (.canadian mt st ots) d =
        ⟨{ s with overtime := some (.canadian sr 0) }, true, false⟩) ∧
    (0 < otr - d →
      tick s (.canadian mt st ots) d =
        ⟨{ s with overtime := some (.canadian sr (otr - d)) }, false, false⟩) := by
  constructor
  · intro hr
    rw [tick_inOvertime s _ d hio, tickOvertime_canadian s mt st ots sr otr d hot, if_pos hr]
  · intro hr
    rw [tick_inOvertime s _ d hio, tickOvertime_canadian s mt st ots sr otr d hot,
      if_neg (by omega)]

/-- C9 (witness): an expiring Canadian tick clamps the block to 0 and keeps the
stone count; a smaller tick only subtracts. -/
theorem tick_canadian_frame_witness :
    tick ⟨0, some (.canadian 7 1000), 3, true⟩ (.canadian 60 25 300) 1000 =
      ⟨⟨0, some (.canadian 7 0), 3, true⟩, true, false⟩ ∧
    tick ⟨0, some (.canadian 7 5000), 3, true⟩ (.canadian 60 25 300) 1000 =
      ⟨⟨0, some (.canadian 7 4000), 3, true⟩, false, false⟩ := by
  constructor
  · exact ((tick_canadian_frame ⟨0, some (.canadian 7 1000), 3, true⟩ 60 25 300 7 1000 1000
      rfl rfl).1 (by norm_num)).trans (by decide)
  · exact ((tick_canadian_frame ⟨0, some (.canadian 7 5000), 3, true⟩ 60 25 300 7 5000 1000
      rfl rfl).2 (by norm_num)).trans (by decide)

/-! ## Claim C10 -/

/-- C10: under a byo-yomi configuration with periods = 0, any tick on a state
not in overtime with deltaMs ≥ mainTimeRemainingMs returns both
enteredOvertime = true and expired = true in the same call, with
overtime = byo-yomi with periodsRemaining 0 and periodTimeRemainingMs 0 - the
player expires immediately upon entering overtime, exactly as under Fischer. -/
theorem byoyomi_zero_periods (s : PlayerState) (mt pts d : Int)
    (hio : s.isInOvertime = false) (hd : s.mainTimeRemainingMs ≤ d) :
    tick s (.byoyomi mt 0 pts) d =
      ⟨{ s with mainTimeRemainingMs := 0, isInOvertime := true, overtime := some (.byoyomi 0 0) },
        true, true⟩ := by
  rw [tick_enter s (.byoyomi mt 0 pts) d hio (by omega)]
  rw [if_pos (by simp [createOvertimeState])]
  set s1 : PlayerState := { s with mainTimeRemainingMs := 0, isInOvertime := true, overtime := createOvertimeState (.byoyomi mt 0 pts) } with hs1
  have hot : s1.overtime = some (.byoyomi 0 (pts * 1000)) := by
    simp [hs1, createOvertimeState]
  rw [tickOvertime_byoyomi s1 mt 0 pts 0 (pts * 1000) (-(s.mainTimeRemainingMs - d)) hot]
  rw [byoLoop_not_run (pts * 1000) (pts * 1000 - -(s.mainTimeRemainingMs - d)) 0 (by omega)]
  dsimp only
  rw [if_pos (le_refl (0 : Int))]

/-- C10 (witness): a 1500ms tick on 1000ms of main time under a 0-period
byo-yomi config enters overtime and expires in the same call. -/
theorem byoyomi_zero_periods_witness :
    tick ⟨1000, none, 0, false⟩ (.byoyomi 60 0 30) 1500 =
      ⟨⟨0, some (.byoyomi 0 0), 0, true⟩, true, true⟩ :=
  (byoyomi_zero_periods ⟨1000, none, 0, false⟩ 60 30 1500 rfl (by norm_num)).trans (by decide)

end ByoYomi
